import Mathlib

/-!
Shallow embedding of the Konnect4 supervisor (Go) and proofs about it.

The board model, the wire codec and the win detection are translated from
`protocol.go`; the game loop from `game.go`; the CFP protocol driver from
`cfp.go`; the `Develop` session hub from the newer copy of `develop.go`;
the engine handle from the older engine wrapper file.

Conventions used throughout:
* Go `int` is modelled as `Int`.
* A Go `[42]int` array is modelled as a `List Int`; every state built by
  the embedded operations has exactly 42 entries.  Accesses with an index
  that Go would reject with an index-out-of-range panic are modelled by
  an `Option` layer whose `none` means "the Go program panics".
* Go `(T, error)` results are modelled as `T × Option String` or
  `Except String T`, with the error strings copied from the source.
* Engine and socket I/O is abstracted: the values that would arrive over
  a channel are passed in as explicit arguments (event lists, scripts).
-/

namespace Konnect4

/-- `Player1` constant from `protocol.go` (`iota` value 0). -/
def Player1 : Int := 0

/-- `Player2` constant from `protocol.go` (`iota` value 1). -/
def Player2 : Int := 1

/-- `Empty` constant from `protocol.go` (`iota` value 2). -/
def Empty : Int := 2

/-- `Tie` constant from `protocol.go` (`iota` value 3). -/
def Tie : Int := 3

/-- `State` struct from `protocol.go`: 42 cells, side to move, winner marker. -/
structure State where
  Tiles : List Int
  Player : Int
  Winner : Int
deriving DecidableEq, Repr

/-- Read `s.Tiles[i]` for a literal index known to be in `[0, 42)`.
Go array indexing with such an index cannot panic, so this is total;
the default is irrelevant for the 42-entry states built by the embedding. -/
def tile42 (s : State) (i : Nat) : Int := s.Tiles.getD i Empty

/-- Read `s.Tiles[i]` for a computed `Int` index.  `none` models the Go
index-out-of-range panic (negative index, or index beyond the array). -/
def tileAt (s : State) (i : Int) : Option Int :=
  if 0 ≤ i ∧ i < 42 then s.Tiles.get? i.toNat else none

/-- Write `s.Tiles[i] = v` for a computed `Int` index; `none` models the
Go index-out-of-range panic. -/
def setTile (s : State) (i : Int) (v : Int) : Option State :=
  if 0 ≤ i ∧ i < 42 then some { s with Tiles := s.Tiles.set i.toNat v } else none

/-- `NewState` from `protocol.go`: empty board, `Player1` to move, no winner. -/
def NewState : State :=
  { Tiles := List.replicate 42 Empty, Player := Player1, Winner := Empty }

/-- The scan loop of `State.dropTile`:
`for i < 42 && s.Tiles[i] == Empty { i += 7 }`.
Returns the final value of `i`; `none` models either the panic that Go
raises when the loop body reads `s.Tiles[i]` with a negative `i`, or fuel
exhaustion.  The index grows by 7 towards the bound 42, so a fuel of 7 is
never exhausted (`dropScanF_total` below); `dropScan` fixes that fuel. -/
def dropScanF (s : State) (i : Int) : Nat → Option Int
  | 0 => if i < 42 then none else some i
  | fuel + 1 =>
    if i < 42 then
      if 0 ≤ i then
        match s.Tiles.get? i.toNat with
        | none => none
        | some t => if t = Empty then dropScanF s (i + 7) fuel else some i
      else none
    else some i

/-- The `dropTile` scan loop with its fuel fixed. -/
def dropScan (s : State) (i : Int) : Option Int := dropScanF s i 7

/-- `State.dropTile` from `protocol.go`.  Returns the pair
(board, error) that the Go function returns; `none` models a panic. -/
def dropTile (s : State) (player : Int) (column : Int) : Option (State × Option String) :=
  match dropScan s column with
  | none => none
  | some j =>
    let i := j - 7
    if i < 0 then some (s, some "illegal move")
    else
      match setTile s i player with
      | none => none
      | some s2 => some (s2, none)

/-- The walk loop inside `State.checkForFour`.  Counts consecutive cells
equal to `player`, starting at `(cx, cy)` and stepping by `(dx, dy)`,
stopping at the board edge or at a non-matching cell.  The source keeps a
flat index in lockstep with `(cx, cy)`; it is carried here as `index` and
`dindex`.  The `fuel` argument bounds the recursion; every walk across the
7×6 board finishes within 8 steps, and the lemmas below show the fuel of 8
used by `checkForFour` is never exhausted. -/
def countDir (s : State) (player cx cy dx dy index dindex : Int) : Nat → Option Nat
  | 0 => none
  | fuel + 1 =>
    if 0 ≤ cx ∧ cx < 7 ∧ 0 ≤ cy ∧ cy < 6 then
      match (if 0 ≤ index then s.Tiles.get? index.toNat else none) with
      | none => none
      | some t =>
        if t = player then
          (countDir s player (cx + dx) (cy + dy) dx dy (index + dindex) dindex fuel).map
            (fun n => n + 1)
        else some 0
    else some 0

/-- `State.checkForFour` from `protocol.go`: walks outward from `(x, y)`
in both directions along `(dx, dy)` and reports whether the total run
(including the cell at `(x, y)` itself) reaches four. -/
def checkForFour (s : State) (player x y dx dy : Int) : Option (Except String Bool) :=
  if x < 0 ∨ 7 ≤ x ∨ y < 0 ∨ 6 ≤ y then some (.error "index out or range")
  else
    match countDir s player (x + dx) (y + dy) dx dy ((x + dx) + 7 * (y + dy)) (dx + 7 * dy) 8 with
    | none => none
    | some c1 =>
      match countDir s player (x - dx) (y - dy) (-dx) (-dy) ((x - dx) + 7 * (y - dy))
          (-(dx + 7 * dy)) 8 with
      | none => none
      | some c2 => some (.ok (decide (4 ≤ 1 + c1 + c2)))

/-- `State.checkAllDirections` from `protocol.go`: horizontal, vertical and
the two diagonals through `(x, y)`, with the same short-circuiting. -/
def checkAllDirections (s : State) (player x y : Int) : Option (Except String Bool) :=
  match checkForFour s player x y 1 0 with
  | none => none
  | some (.error e) => some (.error ("failed to check direction: " ++ e))
  | some (.ok true) => some (.ok true)
  | some (.ok false) =>
    match checkForFour s player x y 0 1 with
    | none => none
    | some (.error e) => some (.error ("failed to check direction: " ++ e))
    | some (.ok true) => some (.ok true)
    | some (.ok false) =>
      match checkForFour s player x y 1 1 with
      | none => none
      | some (.error e) => some (.error ("failed to check direction: " ++ e))
      | some (.ok true) => some (.ok true)
      | some (.ok false) =>
        match checkForFour s player x y 1 (-1) with
        | none => none
        | some (.error e) => some (.error ("failed to check direction: " ++ e))
        | some (.ok w) => some (.ok w)

/-- The scan loop of `State.isWinningMove`:
`for index < 42-7 && s.Tiles[index] == Empty { index += 7 }`.
Fuel as in `dropScanF`; a fuel of 7 is never exhausted. -/
def winScanF (s : State) (index : Int) : Nat → Option Int
  | 0 => if index < 35 then none else some index
  | fuel + 1 =>
    if index < 35 then
      if 0 ≤ index then
        match s.Tiles.get? index.toNat with
        | none => none
        | some t => if t = Empty then winScanF s (index + 7) fuel else some index
      else none
    else some index

/-- The `isWinningMove` scan loop with its fuel fixed. -/
def winScan (s : State) (index : Int) : Option Int := winScanF s index 7

/-- `State.isWinningMove` from `protocol.go`: finds the just-dropped tile in
`column` and checks the four lines through it. -/
def isWinningMove (s : State) (column : Int) : Option (Except String Bool) :=
  if column < 0 ∨ 7 ≤ column then some (.error "index out of range")
  else
    match winScan s column with
    | none => none
    | some index =>
      match (if 0 ≤ index then s.Tiles.get? index.toNat else none) with
      | none => none
      | some player =>
        if player = Empty then some (.error "move wasn't taken")
        else checkAllDirections s player (index % 7) (index / 7)

/-- `State.NextState` from `protocol.go`: drop a tile of the side to move
into `column`, set the winner if the move won, switch the side to move.
The result is the `(State, error)` pair the Go method returns
(on a `dropTile` error the original board comes back; on a win-check
error the board with the tile already placed comes back). -/
def NextState (s : State) (column : Int) : Option (State × Option String) :=
  match dropTile s s.Player column with
  | none => none
  | some (_, some e) => some (s, some ("couldn't perform action: " ++ e))
  | some (s1, none) =>
    match isWinningMove s1 column with
    | none => none
    | some (.error e) => some (s1, some ("failed to perform win check: " ++ e))
    | some (.ok winning) =>
      let s2 := if winning then { s1 with Winner := s1.Player } else s1
      some ({ s2 with Player := if s2.Player = Player1 then Player2 else Player1 }, none)

/-- `State.LegalActions` from `protocol.go`. -/
def LegalActions (s : State) : List Bool :=
  if s.Winner ≠ Empty then List.replicate 7 false
  else (List.range 7).map (fun i => tile42 s i == Empty)

/-- A successful `NextState` application: the returned error is `nil`. -/
def nextOk (s : State) (c : Int) : Option State :=
  match NextState s c with
  | some (s', none) => some s'
  | _ => none

/-- Fold a list of moves over `nextOk`. -/
def playMoves (s : State) : List Int → Option State
  | [] => some s
  | c :: rest =>
    match nextOk s c with
    | none => none
    | some s' => playMoves s' rest

/-- Boards reachable from the starting board by successful `NextState` calls. -/
inductive Reachable : State → Prop
  | base : Reachable NewState
  | step {s s' : State} {c : Int} : Reachable s → nextOk s c = some s' → Reachable s'

/-- The flat `lines` table from `protocol.go`, transcribed verbatim.  Each
group of four indices is meant to be a possible four-in-a-row.  (The table
is copied exactly as written in the source, including the entries
`1, 9, 18, 26` and `10, 18, 26, 11` in the positive-diagonal block.) -/
def lines : List Nat :=
  [0, 1, 2, 3, 1, 2, 3, 4, 2, 3, 4, 5, 3, 4, 5, 6,
   7, 8, 9, 10, 8, 9, 10, 11, 9, 10, 11, 12, 10, 11, 12, 13,
   14, 15, 16, 17, 15, 16, 17, 18, 16, 17, 18, 19, 17, 18, 19, 20,
   21, 22, 23, 24, 22, 23, 24, 25, 23, 24, 25, 26, 24, 25, 26, 27,
   28, 29, 30, 31, 29, 30, 31, 32, 30, 31, 32, 33, 31, 32, 33, 34,
   35, 36, 37, 38, 36, 37, 38, 39, 37, 38, 39, 40, 38, 39, 40, 41,
   0, 7, 14, 21, 7, 14, 21, 28, 14, 21, 28, 35,
   1, 8, 15, 22, 8, 15, 22, 29, 15, 22, 29, 36,
   2, 9, 16, 23, 9, 16, 23, 30, 16, 23, 30, 37,
   3, 10, 17, 24, 10, 17, 24, 31, 17, 24, 31, 38,
   4, 11, 18, 25, 11, 18, 25, 32, 18, 25, 32, 39,
   5, 12, 19, 26, 12, 19, 26, 33, 19, 26, 33, 40,
   6, 13, 20, 27, 13, 20, 27, 34, 20, 27, 34, 41,
   0, 8, 16, 24, 1, 9, 18, 26, 2, 10, 18, 26, 3, 11, 19, 27,
   7, 15, 23, 31, 8, 16, 24, 32, 9, 17, 25, 33, 10, 18, 26, 11,
   14, 22, 30, 38, 15, 23, 31, 39, 16, 24, 32, 40, 17, 25, 33, 41,
   3, 9, 15, 21, 4, 10, 16, 22, 5, 11, 17, 23, 6, 12, 18, 24,
   10, 16, 22, 28, 11, 17, 23, 29, 12, 18, 24, 30, 13, 19, 25, 31,
   17, 23, 29, 35, 18, 24, 30, 36, 19, 25, 31, 37, 20, 26, 32, 38]

/-- The `LINE_LOOP` of `State.calculateWinner`: scan the `lines` table four
entries at a time and return the owner of the first monochromatic group. -/
def calcLines (s : State) : List Nat → Option Int
  | a :: b :: c :: d :: rest =>
    let player := tile42 s a
    if player = Empty then calcLines s rest
    else if tile42 s b = player ∧ tile42 s c = player ∧ tile42 s d = player then some player
    else calcLines s rest
  | _ => none

/-- `State.calculateWinner` from `protocol.go`: first monochromatic group of
the `lines` table, else `Tie` when the board is full, else `Empty`.  All
indices in the table are literals below 42, so Go array indexing is total
here. -/
def calculateWinner (s : State) : Int :=
  match calcLines s lines with
  | some p => p
  | none =>
    if (List.range 42).all (fun i => tile42 s i != Empty) then Tie else Empty

/-- Cell-to-rune conversion used by `State.CFPString` (the Go `switch` has no
default branch, so any other value leaves the zero rune). -/
def tileChar (v : Int) : Char :=
  if v = Player1 then '1' else if v = Player2 then '2' else if v = Empty then '0'
  else Char.ofNat 0

/-- `State.CFPString` from `protocol.go`: the 43-rune wire encoding. -/
def CFPString (s : State) : String :=
  ⟨s.Tiles.map tileChar ++
    [if s.Player = Player1 then '1' else if s.Player = Player2 then '2' else Char.ofNat 0]⟩

/-- Rune-to-cell conversion used by `StateFromCFP`; `none` is the
`"invalid position"` early return. -/
def charTile (c : Char) : Option Int :=
  if c = '0' then some Empty else if c = '1' then some Player1
  else if c = '2' then some Player2 else none

/-- `StateFromCFP` from `protocol.go`: decode a 43-rune position string;
the winner marker is recomputed with `calculateWinner`. -/
def StateFromCFP (p : String) : Except String State :=
  if p.length ≠ 43 then .error "invalid position"
  else
    match (p.toList.take 42).mapM charTile with
    | none => .error "invalid position"
    | some tiles =>
      match p.toList.getD 42 (Char.ofNat 0) with
      | '1' => let r : State := { Tiles := tiles, Player := Player1, Winner := Empty }
               .ok { r with Winner := calculateWinner r }
      | '2' => let r : State := { Tiles := tiles, Player := Player2, Winner := Empty }
               .ok { r with Winner := calculateWinner r }
      | _ => .error "invalid position"

/-! ### A complete drawn game

A legal 42-move game in which no four-in-a-row ever appears.  Each move is
legal and `isWinningMove` returns `false` at every step, so `playMoves`
runs it to the end. -/

/-- Column sequence of a legal 42-move game with no four-in-a-row. -/
def tieMoves : List Int :=
  [5, 4, 5, 0, 6, 2, 4, 5, 5, 0, 4, 1, 1, 0, 4, 5, 6, 5, 3, 1, 1,
   2, 2, 6, 2, 6, 6, 3, 6, 2, 0, 3, 0, 3, 3, 4, 3, 1, 4, 2, 1, 0]

/-- The board reached after `tieMoves`: full, no four-in-a-row, and with
`Winner` still `Empty` (`NextState` has no draw check). -/
def tieBoard : State :=
  { Tiles := [1, 0, 1, 0, 0, 1, 0, 0, 1, 1, 0, 1, 1, 0, 0, 0, 0, 1, 0, 0, 1,
              1, 1, 0, 1, 0, 1, 1, 1, 0, 1, 1, 0, 0, 0, 1, 1, 1, 0, 1, 0, 0],
    Player := 0, Winner := 2 }

/-! ### The game loop of `game.go`

`Game.gameLoop` and `Game.playTurn` interact with the two engines and with
the pause channel.  Those interactions are abstracted into a script of
per-turn outcomes: either some engine call failed, or the pause signal
arrived during the select (with the subsequent `Stop` succeeding or
failing), or the turn timer fired and `Stop` produced a column.  The board
updates, the history writes and the emitted events are modelled exactly. -/

/-- What the environment (engines, pause channel) does during one
`playTurn` call. -/
inductive TurnOutcome
  /-- `updateEngineStates`, `currentPlayer`, `Go` or the post-timer `Stop`
  returned an error. -/
  | stepErr
  /-- The pause signal arrived and the subsequent `Stop` succeeded. -/
  | pauseOk
  /-- The pause signal arrived and the subsequent `Stop` failed. -/
  | pauseErr
  /-- The timer fired and `Stop` returned column `c`. -/
  | move (c : Int)
deriving DecidableEq, Repr

/-- The loop-visible state of a `Game`: current board, history cursor and
the 42-slot history array (`History [42]State`). -/
structure LoopState where
  state : State
  historyIndex : Nat
  history : List State
deriving DecidableEq, Repr

/-- Result of one `playTurn` call. -/
inductive TurnRes
  /-- The turn completed: a move was applied and recorded. -/
  | ok (ls : LoopState)
  /-- The pause path returned `nil` without applying a move. -/
  | paused
  /-- `playTurn` returned an error (the board may have been reassigned). -/
  | errRes (ls : LoopState)
deriving DecidableEq, Repr

/-- `Game.playTurn` from `game.go` with engine interaction abstracted by a
`TurnOutcome`.  `none` models a Go panic (out-of-range board access inside
`NextState`, or the write `History[HistoryIndex]` with an index beyond the
array). -/
def playTurnM (ls : LoopState) (t : TurnOutcome) : Option TurnRes :=
  if ls.state.Winner ≠ Empty then some (.errRes ls)
  else
    match t with
    | .stepErr => some (.errRes ls)
    | .pauseErr => some (.errRes ls)
    | .pauseOk => some .paused
    | .move c =>
      match NextState ls.state c with
      | none => none
      | some (s', some _) => some (.errRes { ls with state := s' })
      | some (s', none) =>
        let idx := ls.historyIndex + 1
        if idx < ls.history.length then
          some (.ok { state := s', historyIndex := idx, history := ls.history.set idx s' })
        else none

/-- Events sent on the `Game.Events` channel (`GameEvent` in `game.go`). -/
inductive GEvent
  | newState (s : State)
  | gameOver (winner : Int)
  | errorEv
deriving DecidableEq, Repr

/-- How a run of the game loop came to an end. -/
inductive RunEnd
  /-- The loop saw a terminal board and emitted `GameOverEvent`. -/
  | finished
  /-- A turn hit the pause path and `Running` became false. -/
  | paused
  /-- A turn returned an error; the loop emitted `ErrorEvent` and returned. -/
  | errored
  /-- A Go panic killed the goroutine. -/
  | panicked
  /-- The script ended with the loop still waiting for its next turn. -/
  | starved
deriving DecidableEq, Repr

/-- `Game.gameLoop` from `game.go`, driven by a finite script of turn
outcomes.  Returns the sequence of events sent on the `Events` channel and
how the run ended.  The pause path gets `playTurn = nil`, so the loop still
emits a `NewStateEvent` for the unchanged board, then exits the loop
(`Running` is false) and emits `GameOverEvent`. -/
def runLoop : LoopState → List TurnOutcome → List GEvent × RunEnd
  | ls, [] =>
    if ls.state.Winner ≠ Empty then ([.gameOver ls.state.Winner], .finished)
    else ([], .starved)
  | ls, t :: rest =>
    if ls.state.Winner ≠ Empty then ([.gameOver ls.state.Winner], .finished)
    else
      match playTurnM ls t with
      | none => ([], .panicked)
      | some (.errRes _) => ([.errorEv], .errored)
      | some .paused => ([.newState ls.state, .gameOver ls.state.Winner], .paused)
      | some (.ok ls') =>
        let r := runLoop ls' rest
        (.newState ls'.state :: r.1, r.2)

/-- Number of turns of a run that actually applied a move to the board
(turns whose `playTurn` completed normally with a move). -/
def movesApplied : LoopState → List TurnOutcome → Nat
  | _, [] => 0
  | ls, t :: rest =>
    if ls.state.Winner ≠ Empty then 0
    else
      match playTurnM ls t with
      | some (.ok ls') => movesApplied ls' rest + 1
      | _ => 0

/-- Count of `GameOverEvent`s in an event list. -/
def countGameOver (evs : List GEvent) : Nat :=
  evs.countP (fun e => match e with | .gameOver _ => true | _ => false)

/-- Count of `NewStateEvent`s in an event list. -/
def countNewState (evs : List GEvent) : Nat :=
  evs.countP (fun e => match e with | .newState _ => true | _ => false)

/-- The Go zero value of `State` (all fields zero; `0` is `Player1`).  The
slots `1..41` of a fresh `History` array hold this value. -/
def zeroState : State :=
  { Tiles := List.replicate 42 0, Player := 0, Winner := 0 }

/-- The loop state created by `NewGame()` in `game.go`:
`History: [42]State{NewState()}`, `HistoryIndex` zero, starting board. -/
def startLoop : LoopState :=
  { state := NewState, historyIndex := 0,
    history := NewState :: List.replicate 41 zeroState }

/-- The drawn game as a script for the game loop. -/
def tieScript : List TurnOutcome := tieMoves.map TurnOutcome.move

/-- The board reached by the moves `0 1 0 1 0 1 0`: `Player1` owns a
vertical four in column 0, so the board is terminal. -/
def wonBoard : State :=
  { Tiles := [2, 2, 2, 2, 2, 2, 2, 2, 2, 2, 2, 2, 2, 2, 0, 2, 2, 2, 2, 2, 2,
              0, 1, 2, 2, 2, 2, 2, 0, 1, 2, 2, 2, 2, 2, 0, 1, 2, 2, 2, 2, 2],
    Player := 1, Winner := 0 }

/-- The board after `Player1` drops into column 3 of the empty board. -/
def oneMoveBoard : State :=
  { Tiles := [2, 2, 2, 2, 2, 2, 2, 2, 2, 2, 2, 2, 2, 2, 2, 2, 2, 2, 2, 2, 2,
              2, 2, 2, 2, 2, 2, 2, 2, 2, 2, 2, 2, 2, 2, 2, 2, 2, 0, 2, 2, 2],
    Player := 1, Winner := 2 }

/-! ### Option model and the CFP option parser of `cfp.go` (C7) -/

/-- ASCII lower-casing of one character (`strings.ToLower`; the protocol
keywords are ASCII). -/
def toLowerChar (ch : Char) : Char :=
  if 'A' ≤ ch ∧ ch ≤ 'Z' then Char.ofNat (ch.toNat + 32) else ch

/-- ASCII `strings.ToLower` on a token. -/
def toLowerStr (str : String) : String := ⟨str.toList.map toLowerChar⟩

/-- `CheckBox` option struct. -/
structure CheckBox where
  Name : String
  Value : Bool
deriving DecidableEq, Repr

/-- `Spinner` option struct: an integer value within a specified range. -/
structure Spinner where
  Name : String
  Min : Int
  Max : Int
  Value : Int
deriving DecidableEq, Repr

/-- `Button` option struct. -/
structure Button where
  Name : String
deriving DecidableEq, Repr

/-- `ComboBox` option struct (the Go `map[string]bool` variant set is
modelled as the list of its keys). -/
structure ComboBox where
  Name : String
  Vars : List String
  Value : String
deriving DecidableEq, Repr

/-- The `String` option struct (renamed: `String` is taken in Lean). -/
structure StringOption where
  Name : String
  Value : String
deriving DecidableEq, Repr

/-- The `Option` interface of the Go source as a tagged sum. -/
inductive EngOption
  | check (c : CheckBox)
  | spin (sp : Spinner)
  | button (b : Button)
  | combo (c : ComboBox)
  | str (so : StringOption)
deriving DecidableEq, Repr

/-- `OptionName()` of each variant. -/
def OptionName : EngOption → String
  | .check c => c.Name
  | .spin sp => sp.Name
  | .button b => b.Name
  | .combo c => c.Name
  | .str so => so.Name

/-- The keyword set of `extractParameters`
(`name`, `type`, `default`, `min`, `max`, `var`). -/
def isIdentifier (str : String) : Bool :=
  let l := toLowerStr str
  l == "name" || l == "type" || l == "default" || l == "min" || l == "max" || l == "var"

/-- `Parameter` struct from `cfp.go`. -/
structure Parameter where
  name : String
  value : String
deriving DecidableEq, Repr

/-- Positions of the keywords in the argument list. -/
def keywordIndexes (args : List String) : List Nat :=
  (List.range args.length).filter (fun i => isIdentifier (args.getD i ""))

/-- `strings.Join l " "`. -/
def joinSpace (l : List String) : String := String.intercalate " " l

/-- `CFPProtocol.extractParameters` from `cfp.go`: each keyword paired with
the tokens up to (but not including) the next keyword. -/
def extractParameters (args : List String) : List Parameter :=
  let idxs := keywordIndexes args
  (List.range idxs.length).map (fun k =>
    let i := idxs.getD k 0
    let endIndex := if k = idxs.length - 1 then args.length else idxs.getD (k + 1) 0
    { name := toLowerStr (args.getD i ""),
      value := joinSpace ((args.drop (i + 1)).take (endIndex - (i + 1))) })

/-- Decimal digit accumulation used by `atoi?`. -/
def digitsToNat (l : List Char) : Nat :=
  l.foldl (fun acc ch => acc * 10 + (ch.toNat - 48)) 0

/-- Go `strconv.Atoi`: optional sign followed by one or more digits
(integer overflow is not modelled; the wire values here are small). -/
def atoi? (str : String) : Option Int :=
  match str.toList with
  | '+' :: rest =>
    if rest.length ≠ 0 ∧ rest.all Char.isDigit then some ((digitsToNat rest : Nat) : Int)
    else none
  | '-' :: rest =>
    if rest.length ≠ 0 ∧ rest.all Char.isDigit then some (-((digitsToNat rest : Nat) : Int))
    else none
  | l =>
    if l.length ≠ 0 ∧ l.all Char.isDigit then some ((digitsToNat l : Nat) : Int)
    else none

/-- The parameter loop of `CFPProtocol.spinOption`: fills in the fields and
the presence flags, failing on a non-integer `min`/`max`/`default`. -/
def spinLoop : Spinner → Bool → Bool → Bool → Bool → List Parameter →
    Except String (Spinner × Bool × Bool × Bool × Bool)
  | r, ns, ms, xs, vs, [] => .ok (r, ns, ms, xs, vs)
  | r, ns, ms, xs, vs, p :: rest =>
    if p.name = "name" then spinLoop { r with Name := p.value } true ms xs vs rest
    else if p.name = "min" then
      match atoi? p.value with
      | none => .error "invalid value for min"
      | some n => spinLoop { r with Min := n } ns true xs vs rest
    else if p.name = "max" then
      match atoi? p.value with
      | none => .error "invalid value for max"
      | some n => spinLoop { r with Max := n } ns ms true vs rest
    else if p.name = "default" then
      match atoi? p.value with
      | none => .error "invalid value for default"
      | some n => spinLoop { r with Value := n } ns ms xs true rest
    else spinLoop r ns ms xs vs rest

/-- `CFPProtocol.spinOption` from `cfp.go`: extract the parameters, fill the
`Spinner`, and fail unless `name`, `min`, `max` and `default` were all set.
(No consistency between `Min`, `Max` and `Value` is checked.) -/
def spinOption (args : List String) : Except String Spinner :=
  match spinLoop { Name := "", Min := 0, Max := 0, Value := 0 } false false false false
      (extractParameters args) with
  | .error e => .error e
  | .ok (r, ns, ms, xs, vs) =>
    if ns && ms && xs && vs then .ok r else .error "spinner requires more information"

/-! ### The CFP handshake of `cfp.go` (C8) -/

/-- The inbound events that the handshake select loop can receive from the
reader goroutine: `id name`, `id author`, a parsed option, or `cfpok`. -/
inductive HSEvent
  | idName (v : String)
  | idAuthor (v : String)
  | optionEv (o : EngOption)
  | cfpok
deriving DecidableEq, Repr

/-- Go map assignment `m[k] = v` on an association list. -/
def mapInsert (m : List (String × EngOption)) (k : String) (v : EngOption) :
    List (String × EngOption) :=
  if m.any (fun q => q.1 == k) then m.map (fun q => if q.1 == k then (k, v) else q)
  else m ++ [(k, v)]

/-- The select loop of `CFPProtocol.Handshake`, driven by the finite list of
events that arrive before the handshake timer fires: name/author writes set
their flags, options are stored, `cfpok` ends the loop and the
name-and-author check runs; if the events run out the timeout branch is
taken. -/
def HandshakeRun : String → String → List (String × EngOption) → Bool → Bool → List HSEvent →
    Except String (String × String × List (String × EngOption))
  | _, _, _, _, _, [] => .error "handshake timed out"
  | nm, auth, opts, setName, setAuthor, e :: rest =>
    match e with
    | .idName v => HandshakeRun v auth opts true setAuthor rest
    | .idAuthor v => HandshakeRun nm v opts setName true rest
    | .optionEv o => HandshakeRun nm auth (mapInsert opts (OptionName o) o) setName setAuthor rest
    | .cfpok =>
      if setName && setAuthor then .ok (nm, auth, opts)
      else .error "name and/or author was not provided"

/-- `CFPProtocol.Handshake` from `cfp.go` over a finite inbound event list
(the events that arrive within `handshakeTimeout`). -/
def Handshake (events : List HSEvent) :
    Except String (String × String × List (String × EngOption)) :=
  HandshakeRun "" "" [] false false events

/-- Is this event `cfpok`? -/
def isCfpok : HSEvent → Bool
  | .cfpok => true
  | _ => false

/-- The events processed before the first `cfpok` (the handshake loop stops
consuming at `cfpok`). -/
def hsPre (evs : List HSEvent) : List HSEvent := evs.takeWhile (fun e => !isCfpok e)

/-! ### The `Develop` hub of the newer `develop.go` (C9) -/

/-- The fields of the `Game` struct from `game.go` used by `setplayers` and
`init` (clock and channels omitted; players are identified by their hub id,
which is faithful because the hub maps distinct ids to distinct engine
pointers). -/
structure GameS where
  Player1Status : Int
  Player1 : Option Int
  Player2Status : Int
  Player2 : Option Int
  State : Konnect4.State
  History : List Konnect4.State
  HistoryIndex : Nat
  Running : Bool
deriving DecidableEq, Repr

/-- `Game.SetPlayer1` from `game.go`. -/
def SetPlayer1 (g : GameS) (e : Option Int) : Except String GameS :=
  if g.Running then .error "cannot set player while game is being played"
  else
    match e with
    | none => .error "player1 cannot be nil"
    | some ei =>
      if some ei = g.Player2 then
        .ok { g with Player1 := some ei, Player1Status := g.Player2Status }
      else
        .ok { g with Player1 := some ei, Player1Status := -1 }

/-- `Game.SetPlayer2` from `game.go`. -/
def SetPlayer2 (g : GameS) (e : Option Int) : Except String GameS :=
  if g.Running then .error "cannot set player while game is being played"
  else
    match e with
    | none => .error "player2 cannot be nil"
    | some ei =>
      if some ei = g.Player1 then
        .ok { g with Player2 := some ei, Player2Status := g.Player1Status }
      else
        .ok { g with Player2 := some ei, Player2Status := -1 }

/-- The `Develop` struct: the loaded-engine registry (id, name, author; the
Go map is carried as a list), the two selected player ids, and the game. -/
structure DevelopS where
  engines : List (Int × String × String)
  player1EngineID : Int
  player2EngineID : Int
  game : GameS
deriving DecidableEq, Repr

/-- `d.engines[id]` lookup. -/
def engineLookup (d : DevelopS) (id : Int) : Option (Int × String × String) :=
  d.engines.find? (fun q => q.1 == id)

/-- Second half of `Develop.setPlayers`: set player2 when an engine was
named for it. -/
def setPlayersStep2 (d : DevelopS) (player2 : Int) (engine2 : Option Int) :
    Except String DevelopS :=
  match engine2 with
  | none => .ok d
  | some e2 =>
    match SetPlayer2 d.game (some e2) with
    | .error e => .error ("couldn't set player2: " ++ e)
    | .ok g2 => .ok { d with game := g2, player2EngineID := player2 }

/-- `Develop.setPlayers` from the newer `develop.go`: look both ids up
(`-1` means "leave the slot alone"), then set player1 and player2 on the
game, recording the chosen ids. -/
def setPlayers (d : DevelopS) (player1 player2 : Int) : Except String DevelopS :=
  if player1 ≠ -1 ∧ engineLookup d player1 = none then .error "no engine with that id"
  else if player2 ≠ -1 ∧ engineLookup d player2 = none then .error "no engine with that id"
  else
    match (if player1 ≠ -1 then some player1 else none : Option Int) with
    | none => setPlayersStep2 d player2 (if player2 ≠ -1 then some player2 else none)
    | some e1 =>
      match SetPlayer1 d.game (some e1) with
      | .error e => .error ("couldn't set player1: " ++ e)
      | .ok g1 =>
        setPlayersStep2 { d with game := g1, player1EngineID := player1 } player2
          (if player2 ≠ -1 then some player2 else none)

/-- `Develop.initRequest` from the newer `develop.go`: the snapshot lines
sent to the requesting observer, in order (engine list, players line,
`newgame`, the history positions, `play` if running, `gameover` if
terminal, the success banner).  `now` stands for `FormatTime(time.Now())`;
the Go map iteration order is represented by the registry list order. -/
def initRequest (d : DevelopS) (now : String) : List String :=
  (d.engines.map (fun q =>
    "engine load id " ++ toString q.1 ++ " name " ++ q.2.1 ++ " author " ++ q.2.2)) ++
  ["players player1 " ++ toString d.player1EngineID ++
    " player2 " ++ toString d.player2EngineID] ++
  ["newgame"] ++
  ((List.range (d.game.HistoryIndex + 1)).map (fun i =>
    "position " ++ CFPString (d.game.History.getD i zeroState))) ++
  (if d.game.Running then ["play"] else []) ++
  (if d.game.State.Winner ≠ Empty then
    ["gameover winner " ++ toString d.game.State.Winner] else []) ++
  ["output time " ++ now ++ " sender INFO message Connected successfully"]

/-! ### The engine handle of the engine wrapper file (C10) -/

/-- The guard state of the `Engine` handle (`ready`, `thinking`). -/
structure EngineP0 where
  ready : Bool
  thinking : Bool
deriving DecidableEq, Repr

/-- `Engine.Go` from the engine wrapper file: guard checks, then the
`thinking` flag is set and the communicator call's result (`commErr`) is
returned. -/
def engineGo (e : EngineP0) (commErr : Option String) : EngineP0 × Option String :=
  if !e.ready then (e, some "engine is not ready")
  else if e.thinking then (e, some "engine is thinking")
  else ({ e with thinking := true }, commErr)

/-- `Engine.Stop` from the engine wrapper file: guard checks, then the
`thinking` flag is cleared BEFORE the communicator's `Stop` result
(`commRes`) is consulted, so the flag clears even on a communicator
error. -/
def engineStop (e : EngineP0) (commRes : Except String Int) : EngineP0 × Except String Int :=
  if !e.ready then (e, .error "engine is not ready")
  else if !e.thinking then (e, .error "engine is not thinking")
  else ({ e with thinking := false }, commRes)

/-- A hub with two loaded engines, no players selected, game idle. -/
def develop0 : DevelopS :=
  { engines := [(0, "A", "B"), (1, "C", "D")]
    player1EngineID := -1
    player2EngineID := -1
    game :=
      { Player1Status := -1
        Player1 := none
        Player2Status := -1
        Player2 := none
        State := NewState
        History := [NewState]
        HistoryIndex := 0
        Running := false } }

/-- The hub after `setplayers player1 0 player2 1` on `develop0`. -/
def develop1 : DevelopS :=
  { develop0 with
      player1EngineID := 0
      player2EngineID := 1
      game := { develop0.game with Player1 := some 0, Player2 := some 1 } }

deriving instance DecidableEq for Except

/-! ### Claims about the board (C1, C2) -/

/-- C1: the spec says `b.apply(c)` is terminal iff a four-in-a-row passes
through the cell just filled or the board is full, and that applying the
42nd token to a board with no four-in-a-row yields a board marked `Tie`.
The code disagrees: `NextState` sets the terminal marker only on a winning
move and never checks fullness.  Playing the legal drawn game `tieMoves`
from the starting board ends in a completely full board whose `Winner` is
still `Empty`, not `Tie`. -/
theorem nextState_full_board_not_marked_tie :
    playMoves NewState tieMoves = some tieBoard ∧
    (∀ i < 42, tile42 tieBoard i ≠ Empty) ∧
    tieBoard.Winner = Empty ∧ Empty ≠ Tie := by decide

/-- C2: the spec says `StateFromCFP (CFPString b) = b` for every reachable
board `b`.  The code disagrees on the drawn board reached by `tieMoves`:
its `Winner` is `Empty` (no draw check in `NextState`), but the decoder
recomputes the marker with `calculateWinner`, which returns `Tie` for the
full board, so the roundtrip changes the state. -/
theorem cfp_roundtrip_fails_on_reachable_draw :
    playMoves NewState tieMoves = some tieBoard ∧
    StateFromCFP (CFPString tieBoard) = .ok { tieBoard with Winner := Tie } ∧
    StateFromCFP (CFPString tieBoard) ≠ .ok tieBoard := by decide

/-! ### Claims about the game loop (C3, C4) -/

/-- C3 counterexample: the claim says a run ended by `Pause` exits the loop
without emitting `GameOver` or an extra `NewState`.  Pausing the very first
turn of a fresh game already emits both: `playTurn` returns `nil` on the
pause path, so the loop emits a `NewStateEvent` for the unchanged starting
board, then sees `Running = false` and emits `GameOverEvent`. -/
theorem pause_emits_gameover_and_newstate :
    runLoop startLoop [TurnOutcome.pauseOk] =
      ([GEvent.newState NewState, GEvent.gameOver Empty], RunEnd.paused) ∧
    countGameOver (runLoop startLoop [TurnOutcome.pauseOk]).1 = 1 ∧
    countNewState (runLoop startLoop [TurnOutcome.pauseOk]).1 = 1 ∧
    movesApplied startLoop [TurnOutcome.pauseOk] = 0 := by decide

/-- C3 amended: for every run of the game loop, the number of `GameOver`
events is one when the run ends by reaching a terminal board and also one
when it ends by `Pause` (with winner still `Empty`), and zero otherwise;
the number of `NewState` events equals the number of moves applied, plus
one extra `NewState` (repeating the unchanged board) for a run ended by
`Pause`. -/
theorem gameLoop_event_counts (ls : LoopState) (script : List TurnOutcome) :
    countGameOver (runLoop ls script).1 =
      (if (runLoop ls script).2 = RunEnd.finished ∨ (runLoop ls script).2 = RunEnd.paused
       then 1 else 0) ∧
    countNewState (runLoop ls script).1 =
      movesApplied ls script +
        (if (runLoop ls script).2 = RunEnd.paused then 1 else 0) := by
  induction script generalizing ls with
  | nil =>
    by_cases h : ls.state.Winner = Empty <;>
      simp [runLoop, movesApplied, countGameOver, countNewState, h]
  | cons t rest ih =>
    by_cases h : ls.state.Winner = Empty
    · rcases hp : playTurnM ls t with _ | tr
      · simp [runLoop, movesApplied, countGameOver, countNewState, h, hp]
      · rcases tr with ls' | _ | ls'
        · have ih' := ih ls'
          simp [runLoop, movesApplied, countGameOver, countNewState, h, hp] at ih' ⊢
          omega
        · simp [runLoop, movesApplied, countGameOver, countNewState, h, hp]
        · simp [runLoop, movesApplied, countGameOver, countNewState, h, hp]
    · simp [runLoop, movesApplied, countGameOver, countNewState, h]

/-- C4: the spec says the history write `History[HistoryIndex]` stays within
the 42-element `History` array for any legal game.  The code disagrees: the
array holds the root position plus at most 41 moves, and a legal 42-move
game (the drawn game `tieMoves`) applies its 42nd move with
`HistoryIndex = 41`, so the write targets `History[42]` and panics.  The
run below applies 41 moves successfully and then dies on that write. -/
theorem history_write_out_of_bounds :
    (runLoop startLoop tieScript).2 = RunEnd.panicked ∧
    movesApplied startLoop tieScript = 41 := by decide

/-! ### Shape of a successful `NextState` (used by C5 and C6) -/

/-- When the `dropTile` scan loop terminates at `j`, the index `j` lies on
the arithmetic chain starting at `i` with step 7, and every chain cell
strictly below `j` holds `Empty`. -/
theorem dropScanF_some (s : State) :
    ∀ (fuel : Nat) (i j : Int), dropScanF s i fuel = some j →
      (∃ m : Nat, j = i + 7 * m) ∧
      ∀ k : Int, (∃ m : Nat, k = i + 7 * m) → k < j →
        s.Tiles.get? k.toNat = some Empty := by
  intro fuel
  induction fuel with
  | zero =>
    intro i j h
    simp only [dropScanF] at h
    split at h
    · exact absurd h (by simp)
    · obtain rfl : j = i := by simpa using h.symm
      exact ⟨⟨0, by omega⟩, fun k ⟨m, hk⟩ hlt => absurd hlt (by omega)⟩
  | succ fuel ih =>
    intro i j h
    simp only [dropScanF] at h
    split at h
    · split at h
      · split at h
        next heq => exact absurd h (by simp)
        next t heq =>
          split at h
          next ht =>
            obtain ⟨⟨m, hm⟩, hchain⟩ := ih (i + 7) j h
            refine ⟨⟨m + 1, by omega⟩, fun k ⟨m', hk⟩ hlt => ?_⟩
            rcases m' with _ | m''
            · obtain rfl : k = i := by omega
              rw [heq, ht]
            · exact hchain k ⟨m'', by omega⟩ hlt
          next ht =>
            obtain rfl : j = i := by simpa using h.symm
            exact ⟨⟨0, by omega⟩, fun k ⟨m, hk⟩ hlt => absurd hlt (by omega)⟩
      · exact absurd h (by simp)
    · obtain rfl : j = i := by simpa using h.symm
      exact ⟨⟨0, by omega⟩, fun k ⟨m, hk⟩ hlt => absurd hlt (by omega)⟩

/-- A successful `NextState` call places exactly one token of the side to
move onto a previously empty cell inside the board, switches the side to
move, and its column was inside `[0, 7)`. -/
theorem nextOk_shape {s s' : State} {c : Int} (h : nextOk s c = some s') :
    0 ≤ c ∧ c < 7 ∧
    ∃ i : Int, 0 ≤ i ∧ i < 42 ∧ s.Tiles.get? i.toNat = some Empty ∧
      s'.Tiles = s.Tiles.set i.toNat s.Player ∧
      s'.Player = (if s.Player = Player1 then Player2 else Player1) := by
  unfold nextOk at h
  split at h
  next s1 heqNS =>
    obtain rfl : s' = s1 := by simpa using h.symm
    unfold NextState at heqNS
    split at heqNS
    · exact absurd heqNS (by simp)
    · exact absurd heqNS (by simp)
    next sd heqDT =>
      split at heqNS
      · exact absurd heqNS (by simp)
      · exact absurd heqNS (by simp)
      next w heqWM =>
        -- the column guard of isWinningMove passed
        have hc : ¬(c < 0 ∨ 7 ≤ c) := by
          intro hcc
          unfold isWinningMove at heqWM
          rw [if_pos hcc] at heqWM
          simp at heqWM
        -- decompose dropTile
        unfold dropTile at heqDT
        split at heqDT
        next heqDS => exact absurd heqDT (by simp)
        next j heqDS =>
          simp only at heqDT
          split at heqDT
          next hneg => simp at heqDT
          next hneg =>
            split at heqDT
            next heqST => exact absurd heqDT (by simp)
            next s2 heqST =>
              obtain rfl : sd = s2 := by simpa using heqDT.symm
              unfold setTile at heqST
              split at heqST
              next hrange =>
                have hs2 : sd = { s with Tiles := s.Tiles.set (j - 7).toNat s.Player } := by
                  simpa using heqST.symm
                have hsc : dropScanF s c 7 = some j := by
                  rw [← heqDS]; rfl
                obtain ⟨⟨m, hm⟩, hchain⟩ := dropScanF_some s 7 c j hsc
                have hm1 : 1 ≤ m := by omega
                have hempty : s.Tiles.get? (j - 7).toNat = some Empty :=
                  hchain (j - 7) ⟨m - 1, by omega⟩ (by omega)
                have hmain : s'.Tiles = s.Tiles.set (j - 7).toNat s.Player ∧
                    s'.Player = (if s.Player = Player1 then Player2 else Player1) := by
                  cases w with
                  | false =>
                    obtain rfl : ({ sd with Player := (if sd.Player = Player1 then Player2
                        else Player1) } : State) = s' := by simpa using heqNS
                    simp [hs2]
                  | true =>
                    obtain rfl : ({ sd with
                        Winner := sd.Player,
                        Player := (if sd.Player = Player1 then Player2 else Player1) } :
                          State) = s' := by simpa using heqNS
                    simp [hs2]
                exact ⟨by omega, by omega, j - 7, hrange.1, hrange.2, hempty, hmain.1, hmain.2⟩
              next hrange => exact absurd heqST (by simp)
  next heqNS => exact absurd h (by simp)

/-- Tokens of colour `w` after overwriting an `Empty` cell with `v`:
the count of `w ≠ Empty` grows by one exactly when `w = v`. -/
theorem count_set_of_get?_empty :
    ∀ (l : List Int) (n : Nat), l.get? n = some Empty →
      ∀ v w : Int, w ≠ Empty →
        (l.set n v).count w = l.count w + (if w = v then 1 else 0) := by
  intro l
  induction l with
  | nil => intro n h; simp at h
  | cons a t ih =>
    intro n h v w hw
    cases n with
    | zero =>
      obtain rfl : a = Empty := by simpa using h
      have hEw : (Empty == w) = false := beq_eq_false_iff_ne.mpr (Ne.symm hw)
      by_cases hv : v = w
      · subst hv
        simp [List.set, List.count_cons, hEw]
      · have hvw : (v == w) = false := beq_eq_false_iff_ne.mpr hv
        have hwv : ¬(w = v) := fun hh => hv hh.symm
        simp [List.set, List.count_cons, hEw, hvw, hwv]
    | succ n =>
      have h2 : t.get? n = some Empty := by simpa using h
      simp only [List.set, List.count_cons, ih n h2 v w hw]
      omega

/-- The inductive invariant behind C6. -/
theorem reachable_inv (s : State) (h : Reachable s) :
    (s.Player = Player1 ∧ s.Tiles.count Player1 = s.Tiles.count Player2) ∨
    (s.Player = Player2 ∧ s.Tiles.count Player1 = s.Tiles.count Player2 + 1) := by
  induction h with
  | base => left; constructor <;> decide
  | @step s s' c _ hstep ih =>
    obtain ⟨-, -, i, -, -, hempty, htiles, hplayer⟩ := nextOk_shape hstep
    have h1 := count_set_of_get?_empty s.Tiles i.toNat hempty s.Player Player1 (by decide)
    have h2 := count_set_of_get?_empty s.Tiles i.toNat hempty s.Player Player2 (by decide)
    rcases ih with ⟨hp, hc⟩ | ⟨hp, hc⟩
    · right
      refine ⟨?_, ?_⟩
      · rw [hplayer, hp]; decide
      · rw [hp] at h1 h2
        rw [if_pos rfl] at h1
        rw [if_neg (by decide : Player2 ≠ Player1)] at h2
        rw [htiles, hp]
        omega
    · left
      refine ⟨?_, ?_⟩
      · rw [hplayer, hp]; decide
      · rw [hp] at h1 h2
        rw [if_neg (by decide : Player1 ≠ Player2)] at h1
        rw [if_pos rfl] at h2
        rw [htiles, hp]
        omega

/-- C6: for every board reachable from the starting board by successful
`NextState` calls, the count of `Player1` tokens equals the count of
`Player2` tokens when `Player1` is to move, and exceeds it by exactly one
when `Player2` is to move. -/
theorem reachable_token_counts (s : State) (h : Reachable s) :
    (s.Player = Player1 → s.Tiles.count Player1 = s.Tiles.count Player2) ∧
    (s.Player = Player2 → s.Tiles.count Player1 = s.Tiles.count Player2 + 1) := by
  rcases reachable_inv s h with ⟨hp, hc⟩ | ⟨hp, hc⟩ <;>
    exact ⟨fun h1 => by first | exact hc | exact absurd (h1 ▸ hp) (by decide),
           fun h2 => by first | exact hc | exact absurd (h2 ▸ hp) (by decide)⟩

/-! ### Totality of the win check after a legal drop (used by C5) -/

/-- The `dropTile` scan loop never exhausts its fuel when started inside the
board with enough fuel to cross it. -/
theorem dropScanF_total (s : State) (hlen : s.Tiles.length = 42) :
    ∀ (fuel : Nat) (i : Int), 0 ≤ i → 42 ≤ i + 7 * fuel →
      ∃ j, dropScanF s i fuel = some j := by
  intro fuel
  induction fuel with
  | zero =>
    intro i h0 hb
    refine ⟨i, ?_⟩
    simp only [dropScanF]
    rw [if_neg (by omega)]
  | succ fuel ih =>
    intro i h0 hb
    by_cases h42 : i < 42
    · have hlt : i.toNat < s.Tiles.length := by omega
      obtain ⟨t, hget⟩ : ∃ t, s.Tiles.get? i.toNat = some t :=
        ⟨s.Tiles.get ⟨i.toNat, hlt⟩, List.get?_eq_get hlt⟩
      by_cases ht : t = Empty
      · obtain ⟨j, hj⟩ := ih (i + 7) (by omega) (by push_cast at hb ⊢; omega)
        refine ⟨j, ?_⟩
        simp only [dropScanF]
        rw [if_pos h42, if_pos h0]
        simp only [hget]
        rw [if_pos ht]
        exact hj
      · refine ⟨i, ?_⟩
        simp only [dropScanF]
        rw [if_pos h42, if_pos h0]
        simp only [hget]
        rw [if_neg ht]
    · exact ⟨i, by simp only [dropScanF]; rw [if_neg h42]⟩

/-- The `dropTile` scan loop stops either at the bottom sentinel or on a
non-empty cell: if it stops inside the board, the cell there is not empty. -/
theorem dropScanF_stop (s : State) :
    ∀ (fuel : Nat) (i j : Int), dropScanF s i fuel = some j → j < 42 →
      ∃ t, s.Tiles.get? j.toNat = some t ∧ t ≠ Empty := by
  intro fuel
  induction fuel with
  | zero =>
    intro i j h hj
    simp only [dropScanF] at h
    split at h
    · exact absurd h (by simp)
    · obtain rfl : j = i := by simpa using h.symm
      omega
  | succ fuel ih =>
    intro i j h hj
    simp only [dropScanF] at h
    split at h
    · split at h
      · split at h
        next heq => exact absurd h (by simp)
        next t heq =>
          split at h
          next ht => exact ih (i + 7) j h hj
          next ht =>
            obtain rfl : j = i := by simpa using h.symm
            exact ⟨t, heq, ht⟩
      · exact absurd h (by simp)
    · obtain rfl : j = i := by simpa using h.symm
      omega

/-- The `isWinningMove` scan loop reaches the first non-empty cell of the
column chain (or the chain cell at or past row sentinel 35). -/
theorem winScanF_reach (s1 : State) :
    ∀ (m fuel : Nat) (i : Int), 0 ≤ i → m < fuel →
      (∀ k : Nat, k < m → s1.Tiles.get? (i + 7 * k).toNat = some Empty ∧ i + 7 * k < 35) →
      (35 ≤ i + 7 * m ∨ ∃ t, s1.Tiles.get? (i + 7 * m).toNat = some t ∧ t ≠ Empty) →
      i + 7 * m < 42 →
      winScanF s1 i fuel = some (i + 7 * m) := by
  intro m
  induction m with
  | zero =>
    intro fuel i h0 hf hchain hstop hb
    obtain ⟨fuel, rfl⟩ : ∃ f, fuel = f + 1 := ⟨fuel - 1, by omega⟩
    rcases hstop with h35 | ⟨t, hget, ht⟩
    · simp only [winScanF]
      rw [if_neg (by omega)]
      norm_num
    · by_cases h35 : i < 35
      · simp only [winScanF]
        rw [if_pos h35, if_pos h0]
        have hg2 : s1.Tiles.get? i.toNat = some t := by
          have : i + 7 * ((0 : Nat) : Int) = i := by push_cast; ring
          rwa [this] at hget
        simp only [hg2]
        rw [if_neg ht]
        norm_num
      · simp only [winScanF]
        rw [if_neg h35]
        norm_num
  | succ m ih =>
    intro fuel i h0 hf hchain hstop hb
    obtain ⟨fuel, rfl⟩ : ∃ f, fuel = f + 1 := ⟨fuel - 1, by omega⟩
    obtain ⟨hget0, hlt0⟩ := hchain 0 (by omega)
    have hi0 : i + 7 * ((0 : Nat) : Int) = i := by push_cast; ring
    rw [hi0] at hget0 hlt0
    simp only [winScanF]
    rw [if_pos (by omega), if_pos h0]
    simp only [hget0, if_true]
    have hshift : (i + 7) + 7 * (m : Int) = i + 7 * ((m : Nat) + 1 : Nat) := by
      push_cast; ring
    have := ih fuel (i + 7) (by omega) (by omega)
      (fun k hk => by
        have h := hchain (k + 1) (by omega)
        have : i + 7 * ((k : Nat) + 1 : Nat) = (i + 7) + 7 * (k : Int) := by push_cast; ring
        rwa [this] at h)
      (by rw [hshift]; exact hstop)
      (by push_cast at hb ⊢; omega)
    rw [this, hshift]

/-- The walk loop of `checkForFour` terminates with a count whenever a
strictly decreasing in-range measure bounds the fuel.  The `index`
argument tracks `cx + 7 * cy`, exactly as in the source. -/
theorem countDir_total (s1 : State) (hlen : s1.Tiles.length = 42)
    (player dx dy : Int) (meas : Int → Int → Int)
    (hm : ∀ cx cy, 0 ≤ cx ∧ cx < 7 ∧ 0 ≤ cy ∧ cy < 6 →
      1 ≤ meas cx cy ∧ meas (cx + dx) (cy + dy) < meas cx cy) :
    ∀ (fuel : Nat) (cx cy : Int), 1 ≤ fuel → meas cx cy < fuel →
      ∃ n, countDir s1 player cx cy dx dy (cx + 7 * cy) (dx + 7 * dy) fuel = some n := by
  intro fuel
  induction fuel with
  | zero => intro cx cy h1 _; omega
  | succ fuel ih =>
    intro cx cy _ hmf
    by_cases hrange : 0 ≤ cx ∧ cx < 7 ∧ 0 ≤ cy ∧ cy < 6
    · have hidx : 0 ≤ cx + 7 * cy := by obtain ⟨a, b, c, d⟩ := hrange; positivity
      have hlt : (cx + 7 * cy).toNat < s1.Tiles.length := by
        have : cx + 7 * cy < 42 := by omega
        omega
      obtain ⟨t, hget⟩ : ∃ t, s1.Tiles.get? (cx + 7 * cy).toNat = some t :=
        ⟨s1.Tiles.get ⟨(cx + 7 * cy).toNat, hlt⟩, List.get?_eq_get hlt⟩
      by_cases ht : t = player
      · obtain ⟨hm1, hmdec⟩ := hm cx cy hrange
        obtain ⟨n, hn⟩ := ih (cx + dx) (cy + dy) (by omega) (by omega)
        refine ⟨n + 1, ?_⟩
        simp only [countDir]
        rw [if_pos hrange, if_pos hidx]
        simp only [hget]
        rw [if_pos ht]
        have harith : (cx + 7 * cy) + (dx + 7 * dy) = (cx + dx) + 7 * (cy + dy) := by ring
        rw [harith, hn]
        rfl
      · refine ⟨0, ?_⟩
        simp only [countDir]
        rw [if_pos hrange, if_pos hidx]
        simp only [hget]
        rw [if_neg ht]
    · exact ⟨0, by simp only [countDir]; rw [if_neg hrange]⟩

/-- `checkAllDirections` succeeds (produces an `ok` verdict) on any in-board
cell of a 42-cell board. -/
theorem checkAllDirections_total (s1 : State) (hlen : s1.Tiles.length = 42)
    (player x y : Int) (hx0 : 0 ≤ x) (hx7 : x < 7) (hy0 : 0 ≤ y) (hy6 : y < 6) :
    ∃ w, checkAllDirections s1 player x y = some (.ok w) := by
  have hguard : ¬(x < 0 ∨ 7 ≤ x ∨ y < 0 ∨ 6 ≤ y) := by omega
  have w1 := countDir_total s1 hlen player 1 0 (fun cx _ => 7 - cx)
    (fun cx cy h => by dsimp only; omega) 8 (x + 1) (y + 0) (by omega) (by dsimp only; omega)
  have w1' := countDir_total s1 hlen player (-1) 0 (fun cx _ => cx + 1)
    (fun cx cy h => by dsimp only; omega) 8 (x - 1) (y - 0) (by omega) (by dsimp only; omega)
  have w2 := countDir_total s1 hlen player 0 1 (fun _ cy => 6 - cy)
    (fun cx cy h => by dsimp only; omega) 8 (x + 0) (y + 1) (by omega) (by dsimp only; omega)
  have w2' := countDir_total s1 hlen player 0 (-1) (fun _ cy => cy + 1)
    (fun cx cy h => by dsimp only; omega) 8 (x - 0) (y - 1) (by omega) (by dsimp only; omega)
  have w3 := countDir_total s1 hlen player 1 1 (fun cx _ => 7 - cx)
    (fun cx cy h => by dsimp only; omega) 8 (x + 1) (y + 1) (by omega) (by dsimp only; omega)
  have w3' := countDir_total s1 hlen player (-1) (-1) (fun cx _ => cx + 1)
    (fun cx cy h => by dsimp only; omega) 8 (x - 1) (y - 1) (by omega) (by dsimp only; omega)
  have w4 := countDir_total s1 hlen player 1 (-1) (fun cx _ => 7 - cx)
    (fun cx cy h => by dsimp only; omega) 8 (x + 1) (y - 1) (by omega) (by dsimp only; omega)
  have w4' := countDir_total s1 hlen player (-1) 1 (fun cx _ => cx + 1)
    (fun cx cy h => by dsimp only; omega) 8 (x - 1) (y + 1) (by omega) (by dsimp only; omega)
  obtain ⟨n1, h1⟩ := w1; obtain ⟨n1', h1'⟩ := w1'
  obtain ⟨n2, h2⟩ := w2; obtain ⟨n2', h2'⟩ := w2'
  obtain ⟨n3, h3⟩ := w3; obtain ⟨n3', h3'⟩ := w3'
  obtain ⟨n4, h4⟩ := w4; obtain ⟨n4', h4'⟩ := w4'
  have c1 : checkForFour s1 player x y 1 0 = some (.ok (decide (4 ≤ 1 + n1 + n1'))) := by
    unfold checkForFour
    rw [if_neg hguard]
    rw [show (1 : Int) + 7 * 0 = 1 + 7 * 0 from rfl]
    norm_num at h1 h1' ⊢
    rw [h1, h1']
  have c2 : checkForFour s1 player x y 0 1 = some (.ok (decide (4 ≤ 1 + n2 + n2'))) := by
    unfold checkForFour
    rw [if_neg hguard]
    norm_num at h2 h2' ⊢
    rw [h2, h2']
  have c3 : checkForFour s1 player x y 1 1 = some (.ok (decide (4 ≤ 1 + n3 + n3'))) := by
    unfold checkForFour
    rw [if_neg hguard]
    norm_num at h3 h3' ⊢
    rw [h3, h3']
  have c4 : checkForFour s1 player x y 1 (-1) = some (.ok (decide (4 ≤ 1 + n4 + n4'))) := by
    unfold checkForFour
    rw [if_neg hguard]
    norm_num at h4 h4' ⊢
    rw [show y + -1 = y - 1 by ring, h4, h4']
  unfold checkAllDirections
  rw [c1, c2, c3, c4]
  rcases decide (4 ≤ 1 + n1 + n1') with _ | _ <;>
    rcases decide (4 ≤ 1 + n2 + n2') with _ | _ <;>
    rcases decide (4 ≤ 1 + n3 + n3') with _ | _ <;>
    rcases decide (4 ≤ 1 + n4 + n4') with _ | _ <;>
    exact ⟨_, rfl⟩

/-- `List.getD` through a known `List.get?` value. -/
theorem getD_of_get? (l : List Int) (n : Nat) (d t : Int) (h : l.get? n = some t) :
    l.getD n d = t := by
  have h2 : l[n]? = some t := by simpa [List.get?_eq_getElem?] using h
  simp [List.getD_eq_getElem?_getD, h2]

/-- C5 counterexample: the claim says `NextState` returns an error when the
board is terminal.  It does not: `NextState` never inspects `Winner`, so
dropping into the non-full column 1 of the won board `wonBoard` succeeds
with a `nil` error (and even re-assigns the winner marker). -/
theorem nextState_accepts_terminal_board :
    playMoves NewState [0, 1, 0, 1, 0, 1, 0] = some wonBoard ∧
    wonBoard.Winner = Player1 ∧ wonBoard.Winner ≠ Empty ∧
    (NextState wonBoard 1).map (fun r => r.2) = some none := by decide

/-- C5 amended: for a 42-cell board whose side to move is a player and a
column `c` in `[0, 7)`, `NextState` always returns (it never panics
there), it returns an error exactly when column `c` is full (its top cell
is not empty), that error is the wrapped `dropTile` "illegal move" error
and the board comes back unchanged; when the column has room the call
succeeds with a `nil` error.  Terminality of the board plays no role. -/
theorem nextState_error_iff_column_full (s : State) (c : Int)
    (hlen : s.Tiles.length = 42)
    (hp : s.Player = Player1 ∨ s.Player = Player2)
    (h0 : 0 ≤ c) (h7 : c < 7) :
    (tile42 s c.toNat ≠ Empty →
      NextState s c = some (s, some "couldn't perform action: illegal move")) ∧
    (tile42 s c.toNat = Empty → ∃ s', NextState s c = some (s', none)) := by
  have hlt : c.toNat < s.Tiles.length := by omega
  obtain ⟨t0, hget⟩ : ∃ t, s.Tiles.get? c.toNat = some t :=
    ⟨s.Tiles.get ⟨c.toNat, hlt⟩, List.get?_eq_get hlt⟩
  have htile : tile42 s c.toNat = t0 := getD_of_get? _ _ _ _ hget
  constructor
  · intro hfull
    rw [htile] at hfull
    have hds : dropScan s c = some c := by
      unfold dropScan
      rw [show (7 : ℕ) = 6 + 1 from rfl]
      simp only [dropScanF]
      rw [if_pos (by omega : c < 42), if_pos h0]
      simp only [hget]
      rw [if_neg hfull]
    unfold NextState dropTile
    simp only [hds]
    rw [if_pos (by omega : c - 7 < 0)]
    rfl
  · intro hemp
    have ht0 : t0 = Empty := by rw [← htile]; exact hemp
    subst ht0
    obtain ⟨j, hj⟩ := dropScanF_total s hlen 7 c h0 (by push_cast; omega)
    obtain ⟨⟨m, hm⟩, hchain⟩ := dropScanF_some s 7 c j hj
    have hm1 : 1 ≤ m := by
      by_contra hc0
      have hm0 : m = 0 := by omega
      subst hm0
      have hj42 : j < 42 := by omega
      obtain ⟨t, hgt, htne⟩ := dropScanF_stop s 7 c j hj hj42
      rw [show j = c from by omega] at hgt
      rw [hget] at hgt
      exact htne (by simpa using hgt.symm)
    have hempty : s.Tiles.get? (j - 7).toNat = some Empty :=
      hchain (j - 7) ⟨m - 1, by omega⟩ (by omega)
    obtain ⟨hlt7, -⟩ := List.get?_eq_some.mp hempty
    have hj70 : 0 ≤ j - 7 := by omega
    have hj7 : j - 7 < 42 := by omega
    have hst : setTile s (j - 7) s.Player =
        some { s with Tiles := s.Tiles.set (j - 7).toNat s.Player } := by
      unfold setTile
      rw [if_pos ⟨hj70, hj7⟩]
    have hdt : dropTile s s.Player c =
        some ({ s with Tiles := s.Tiles.set (j - 7).toNat s.Player }, none) := by
      unfold dropTile
      simp only [show dropScan s c = some j from hj]
      rw [if_neg (by omega : ¬j - 7 < 0)]
      simp only [hst]
    set s1 : State := { s with Tiles := s.Tiles.set (j - 7).toNat s.Player } with hs1
    have hlen1 : s1.Tiles.length = 42 := by
      rw [hs1]
      simpa using hlen
    have hplaced : s1.Tiles.get? (j - 7).toNat = some s.Player :=
      List.get?_set_eq_of_lt _ (by omega)
    have hpe : s.Player ≠ Empty := by rcases hp with h | h <;> rw [h] <;> decide
    have hws : winScanF s1 c 7 = some (c + 7 * ((m - 1 : Nat) : Int)) := by
      refine winScanF_reach s1 (m - 1) 7 c h0 (by omega) ?_ ?_ (by omega)
      · intro k hk
        constructor
        · have hne : (j - 7).toNat ≠ (c + 7 * (k : Int)).toNat := by omega
          have hsame : s1.Tiles.get? (c + 7 * (k : Int)).toNat =
              s.Tiles.get? (c + 7 * (k : Int)).toNat :=
            List.get?_set_ne _ _ hne
          rw [hsame]
          exact hchain (c + 7 * (k : Int)) ⟨k, rfl⟩ (by omega)
        · omega
      · right
        refine ⟨s.Player, ?_, hpe⟩
        rw [show c + 7 * ((m - 1 : Nat) : Int) = j - 7 from by omega]
        exact hplaced
    have hwsj : winScan s1 c = some (j - 7) := by
      unfold winScan
      rw [hws, show c + 7 * ((m - 1 : Nat) : Int) = j - 7 from by omega]
    obtain ⟨w, hcad⟩ := checkAllDirections_total s1 hlen1 s.Player
      ((j - 7) % 7) ((j - 7) / 7) (by omega) (by omega) (by omega) (by omega)
    have hwm : isWinningMove s1 c = some (.ok w) := by
      unfold isWinningMove
      rw [if_neg (by omega : ¬(c < 0 ∨ 7 ≤ c))]
      simp only [hwsj]
      rw [if_pos hj70]
      simp only [hplaced]
      rw [if_neg hpe]
      exact hcad
    refine ⟨{ (if w = true then { s1 with Winner := s1.Player } else s1) with
        Player := (if (if w = true then { s1 with Winner := s1.Player } else s1).Player = Player1
          then Player2 else Player1) }, ?_⟩
    unfold NextState
    simp only [hdt, hwm]

/-- C5 amended witness: the characterization evaluated on the terminal
board `wonBoard` with column 1 (which has room). -/
theorem nextState_error_iff_column_full_witness :
    (tile42 wonBoard (1 : Int).toNat ≠ Empty →
      NextState wonBoard 1 = some (wonBoard, some "couldn't perform action: illegal move")) ∧
    (tile42 wonBoard (1 : Int).toNat = Empty →
      ∃ s', NextState wonBoard 1 = some (s', none)) :=
  nextState_error_iff_column_full wonBoard 1 (by decide) (by decide) (by decide) (by decide)

/-- C6 witness: the invariant, evaluated on the concrete reachable board
`oneMoveBoard` (one `Player1` token, `Player2` to move). -/
theorem reachable_token_counts_witness :
    (oneMoveBoard.Player = Player1 →
      oneMoveBoard.Tiles.count Player1 = oneMoveBoard.Tiles.count Player2) ∧
    (oneMoveBoard.Player = Player2 →
      oneMoveBoard.Tiles.count Player1 = oneMoveBoard.Tiles.count Player2 + 1) :=
  reachable_token_counts oneMoveBoard
    (Reachable.step Reachable.base (by decide : nextOk NewState 3 = some oneMoveBoard))

/-! ### C7: the spin option parser -/

/-- C7 counterexample: the claim says the parser rejects a spin description
whose parsed integers violate `min ≤ default ≤ max`.  It does not:
`spinOption` only checks that the four fields are present and integral, so
`min 5 max 1 default 10` is accepted verbatim. -/
theorem spinOption_accepts_inconsistent_range :
    spinOption ["name", "X", "type", "spin", "min", "5", "max", "1", "default", "10"] =
      .ok { Name := "X", Min := 5, Max := 1, Value := 10 } ∧
    ¬((5 : Int) ≤ 10 ∧ (10 : Int) ≤ 1) := by
  constructor
  · rfl
  · decide

/-- Each presence flag set by the `spinOption` parameter loop certifies that
the corresponding field was already set or occurs in the parameter list
(with an integral value for `min`/`max`/`default`). -/
theorem spinLoop_flags :
    ∀ (ps : List Parameter) (r : Spinner) (ns ms xs vs : Bool)
      (r' : Spinner) (ns' ms' xs' vs' : Bool),
      spinLoop r ns ms xs vs ps = .ok (r', ns', ms', xs', vs') →
      (ns' = true → ns = true ∨ ∃ p ∈ ps, p.name = "name") ∧
      (ms' = true → ms = true ∨ ∃ p ∈ ps, p.name = "min" ∧ (atoi? p.value).isSome) ∧
      (xs' = true → xs = true ∨ ∃ p ∈ ps, p.name = "max" ∧ (atoi? p.value).isSome) ∧
      (vs' = true → vs = true ∨ ∃ p ∈ ps, p.name = "default" ∧ (atoi? p.value).isSome) := by
  intro ps
  induction ps with
  | nil =>
    intro r ns ms xs vs r' ns' ms' xs' vs' h
    obtain ⟨rfl, rfl, rfl, rfl, rfl⟩ : r = r' ∧ ns = ns' ∧ ms = ms' ∧ xs = xs' ∧ vs = vs' := by
      simpa [spinLoop] using h
    exact ⟨fun h => Or.inl h, fun h => Or.inl h, fun h => Or.inl h, fun h => Or.inl h⟩
  | cons p rest ih =>
    intro r ns ms xs vs r' ns' ms' xs' vs' h
    have lift : ∀ {P : Parameter → Prop}, (∃ q ∈ rest, P q) → ∃ q ∈ p :: rest, P q :=
      fun ⟨q, hq, hP⟩ => ⟨q, List.mem_cons_of_mem _ hq, hP⟩
    simp only [spinLoop] at h
    split_ifs at h with h1 h2 h3 h4
    · obtain ⟨c1, c2, c3, c4⟩ := ih _ _ _ _ _ _ _ _ _ _ h
      exact ⟨fun _ => Or.inr ⟨p, List.mem_cons_self _ _, h1⟩,
             fun hx => (c2 hx).imp id lift,
             fun hx => (c3 hx).imp id lift,
             fun hx => (c4 hx).imp id lift⟩
    · split at h
      next heq => exact absurd h (by simp)
      next n heq =>
        obtain ⟨c1, c2, c3, c4⟩ := ih _ _ _ _ _ _ _ _ _ _ h
        exact ⟨fun hx => (c1 hx).imp id lift,
               fun _ => Or.inr ⟨p, List.mem_cons_self _ _, h2, by simp [heq]⟩,
               fun hx => (c3 hx).imp id lift,
               fun hx => (c4 hx).imp id lift⟩
    · split at h
      next heq => exact absurd h (by simp)
      next n heq =>
        obtain ⟨c1, c2, c3, c4⟩ := ih _ _ _ _ _ _ _ _ _ _ h
        exact ⟨fun hx => (c1 hx).imp id lift,
               fun hx => (c2 hx).imp id lift,
               fun _ => Or.inr ⟨p, List.mem_cons_self _ _, h3, by simp [heq]⟩,
               fun hx => (c4 hx).imp id lift⟩
    · split at h
      next heq => exact absurd h (by simp)
      next n heq =>
        obtain ⟨c1, c2, c3, c4⟩ := ih _ _ _ _ _ _ _ _ _ _ h
        exact ⟨fun hx => (c1 hx).imp id lift,
               fun hx => (c2 hx).imp id lift,
               fun hx => (c3 hx).imp id lift,
               fun _ => Or.inr ⟨p, List.mem_cons_self _ _, h4, by simp [heq]⟩⟩
    · obtain ⟨c1, c2, c3, c4⟩ := ih _ _ _ _ _ _ _ _ _ _ h
      exact ⟨fun hx => (c1 hx).imp id lift,
             fun hx => (c2 hx).imp id lift,
             fun hx => (c3 hx).imp id lift,
             fun hx => (c4 hx).imp id lift⟩

/-- C7 amended: `spinOption` returns an error unless the `name`, `min`,
`max` and `default` fields are all present, the last three with integer
values; no mutual consistency between them is required (see the
counterexample).  Equivalently: a successful parse certifies the presence
of all four fields with integral `min`/`max`/`default`. -/
theorem spinOption_ok_fields_present (args : List String) (r : Spinner)
    (h : spinOption args = .ok r) :
    (∃ p ∈ extractParameters args, p.name = "name") ∧
    (∃ p ∈ extractParameters args, p.name = "min" ∧ (atoi? p.value).isSome) ∧
    (∃ p ∈ extractParameters args, p.name = "max" ∧ (atoi? p.value).isSome) ∧
    (∃ p ∈ extractParameters args, p.name = "default" ∧ (atoi? p.value).isSome) := by
  unfold spinOption at h
  split at h
  next heq => exact absurd h (by simp)
  next r0 ns ms xs vs heq =>
    split_ifs at h with hflags
    · simp only [Bool.and_eq_true] at hflags
      obtain ⟨⟨⟨hns, hms⟩, hxs⟩, hvs⟩ := hflags
      obtain ⟨c1, c2, c3, c4⟩ := spinLoop_flags (extractParameters args) _ _ _ _ _ _ _ _ _ _ heq
      refine ⟨?_, ?_, ?_, ?_⟩
      · rcases c1 hns with hc | he
        · exact absurd hc (by simp)
        · exact he
      · rcases c2 hms with hc | he
        · exact absurd hc (by simp)
        · exact he
      · rcases c3 hxs with hc | he
        · exact absurd hc (by simp)
        · exact he
      · rcases c4 hvs with hc | he
        · exact absurd hc (by simp)
        · exact he

/-- C7 amended witness: the field-presence consequence evaluated on the
concrete inconsistent spin description. -/
theorem spinOption_ok_fields_present_witness :
    (∃ p ∈ extractParameters ["name", "X", "type", "spin", "min", "5", "max", "1",
        "default", "10"], p.name = "name") ∧
    (∃ p ∈ extractParameters ["name", "X", "type", "spin", "min", "5", "max", "1",
        "default", "10"], p.name = "min" ∧ (atoi? p.value).isSome) ∧
    (∃ p ∈ extractParameters ["name", "X", "type", "spin", "min", "5", "max", "1",
        "default", "10"], p.name = "max" ∧ (atoi? p.value).isSome) ∧
    (∃ p ∈ extractParameters ["name", "X", "type", "spin", "min", "5", "max", "1",
        "default", "10"], p.name = "default" ∧ (atoi? p.value).isSome) :=
  spinOption_ok_fields_present _ _ (by rfl)

/-! ### C8: the handshake -/

/-- `hsPre` of a list starting with `cfpok` is empty. -/
theorem hsPre_cfpok (rest : List HSEvent) : hsPre (HSEvent.cfpok :: rest) = [] := by
  simp [hsPre, List.takeWhile_cons, isCfpok]

/-- The handshake select loop succeeds iff `cfpok` arrives and both
identity events were seen before it (or the flags were already set), and
it reports the timeout error iff `cfpok` never arrives. -/
theorem handshakeRun_cases :
    ∀ (evs : List HSEvent) (nm auth : String) (opts : List (String × EngOption)) (sn sa : Bool),
      ((HandshakeRun nm auth opts sn sa evs).isOk = true ↔
        (HSEvent.cfpok ∈ evs ∧ (sn = true ∨ ∃ n, HSEvent.idName n ∈ hsPre evs) ∧
          (sa = true ∨ ∃ a, HSEvent.idAuthor a ∈ hsPre evs))) ∧
      (HandshakeRun nm auth opts sn sa evs = .error "handshake timed out" ↔
        HSEvent.cfpok ∉ evs) := by
  intro evs
  induction evs with
  | nil =>
    intro nm auth opts sn sa
    simp [HandshakeRun, hsPre, Except.isOk, Except.toBool]
  | cons e rest ih =>
    intro nm auth opts sn sa
    cases e with
    | idName v =>
      have IH := ih v auth opts true sa
      constructor
      · simp only [HandshakeRun, IH.1, hsPre, List.takeWhile_cons, isCfpok]
        simp [List.mem_cons]
      · simp only [HandshakeRun, IH.2]
        simp [List.mem_cons]
    | idAuthor v =>
      have IH := ih nm v opts sn true
      constructor
      · simp only [HandshakeRun, IH.1, hsPre, List.takeWhile_cons, isCfpok]
        simp [List.mem_cons]
      · simp only [HandshakeRun, IH.2]
        simp [List.mem_cons]
    | optionEv o =>
      have IH := ih nm auth (mapInsert opts (OptionName o) o) sn sa
      constructor
      · simp only [HandshakeRun, IH.1, hsPre, List.takeWhile_cons, isCfpok]
        simp [List.mem_cons]
      · simp only [HandshakeRun, IH.2]
        simp [List.mem_cons]
    | cfpok =>
      constructor
      · constructor
        · intro h
          refine ⟨List.mem_cons_self _ _, ?_, ?_⟩ <;>
          · simp only [HandshakeRun] at h
            split_ifs at h with hb
            · simp at hb
              first
                | exact Or.inl hb.1
                | exact Or.inl hb.2
            · simp [Except.isOk, Except.toBool] at h
        · intro ⟨_, h1, h2⟩
          simp only [HandshakeRun]
          have hsn : sn = true := by
            rcases h1 with h | ⟨n, hn⟩
            · exact h
            · rw [hsPre_cfpok] at hn
              exact absurd hn (List.not_mem_nil _)
          have hsa : sa = true := by
            rcases h2 with h | ⟨a, ha⟩
            · exact h
            · rw [hsPre_cfpok] at ha
              exact absurd ha (List.not_mem_nil _)
          simp [hsn, hsa, Except.isOk, Except.toBool]
      · simp only [HandshakeRun]
        constructor
        · intro h
          split_ifs at h <;> simp at h
        · intro h
          exact absurd (List.mem_cons_self _ _) h

/-- The handshake loop yields one of exactly three outcomes: success, the
timeout error, or the missing-identity error. -/
theorem handshakeRun_result :
    ∀ (evs : List HSEvent) (nm auth : String) (opts : List (String × EngOption)) (sn sa : Bool),
      (HandshakeRun nm auth opts sn sa evs).isOk = true ∨
      HandshakeRun nm auth opts sn sa evs = .error "handshake timed out" ∨
      HandshakeRun nm auth opts sn sa evs = .error "name and/or author was not provided" := by
  intro evs
  induction evs with
  | nil => intro nm auth opts sn sa; exact Or.inr (Or.inl rfl)
  | cons e rest ih =>
    intro nm auth opts sn sa
    cases e with
    | idName v => exact ih v auth opts true sa
    | idAuthor v => exact ih nm v opts sn true
    | optionEv o => exact ih nm auth (mapInsert opts (OptionName o) o) sn sa
    | cfpok =>
      simp only [HandshakeRun]
      by_cases hb : (sn && sa) = true
      · rw [if_pos hb]; exact Or.inl rfl
      · rw [if_neg hb]; exact Or.inr (Or.inr rfl)

/-- C8: `Handshake` over the events that arrive within the handshake
timeout succeeds iff a `cfpok` arrives and both an `id name` and an
`id author` event were observed before it; it fails with the timeout error
iff `cfpok` never arrives; and it fails with the missing-identity error iff
`cfpok` arrives but a name or an author is missing before it. -/
theorem handshake_characterization (evs : List HSEvent) :
    ((Handshake evs).isOk = true ↔
      (HSEvent.cfpok ∈ evs ∧ (∃ n, HSEvent.idName n ∈ hsPre evs) ∧
        (∃ a, HSEvent.idAuthor a ∈ hsPre evs))) ∧
    (Handshake evs = .error "handshake timed out" ↔ HSEvent.cfpok ∉ evs) ∧
    (Handshake evs = .error "name and/or author was not provided" ↔
      (HSEvent.cfpok ∈ evs ∧
        ¬((∃ n, HSEvent.idName n ∈ hsPre evs) ∧ (∃ a, HSEvent.idAuthor a ∈ hsPre evs)))) := by
  have hc := handshakeRun_cases evs "" "" [] false false
  have h1 : ((Handshake evs).isOk = true ↔
      (HSEvent.cfpok ∈ evs ∧ (∃ n, HSEvent.idName n ∈ hsPre evs) ∧
        (∃ a, HSEvent.idAuthor a ∈ hsPre evs))) := by
    rw [show Handshake evs = HandshakeRun "" "" [] false false evs from rfl, hc.1]
    simp
  have h2 : (Handshake evs = .error "handshake timed out" ↔ HSEvent.cfpok ∉ evs) := hc.2
  refine ⟨h1, h2, ?_⟩
  constructor
  · intro h
    have hne : Handshake evs ≠ .error "handshake timed out" := by
      rw [h]
      intro hh
      have : ("name and/or author was not provided" : String) = "handshake timed out" := by
        simpa using hh
      exact absurd this (by decide)
    have hmem : HSEvent.cfpok ∈ evs := by
      by_contra hmem
      exact hne (h2.mpr hmem)
    refine ⟨hmem, fun hboth => ?_⟩
    have : (Handshake evs).isOk = true := h1.mpr ⟨hmem, hboth.1, hboth.2⟩
    rw [h] at this
    simp [Except.isOk, Except.toBool] at this
  · intro ⟨hmem, hnot⟩
    rcases handshakeRun_result evs "" "" [] false false with hok | htime | hmiss
    · exfalso
      exact hnot ⟨(h1.mp hok).2.1, (h1.mp hok).2.2⟩
    · exact absurd (h2.mp htime) (by simp [hmem])
    · exact hmiss

/-! ### C9: setplayers followed by init -/

/-- C9: a successful `setplayers` naming engine ids `X` and `Y` stores them
in the hub, and the snapshot produced by a subsequent `init` contains the
players line reporting exactly `X` and `Y`. -/
theorem setplayers_then_init_reports_players (d d' : DevelopS) (X Y : Int) (now : String)
    (hx : X ≠ -1) (hy : Y ≠ -1) (h : setPlayers d X Y = .ok d') :
    d'.player1EngineID = X ∧ d'.player2EngineID = Y ∧
    ("players player1 " ++ toString X ++ " player2 " ++ toString Y) ∈ initRequest d' now := by
  unfold setPlayers at h
  split at h
  next hc1 => exact absurd h (by simp)
  next hc1 =>
    split at h
    next hc2 => exact absurd h (by simp)
    next hc2 =>
      split at h
      next heq0 => exact absurd heq0 (by simp)
      next e1 heq0 =>
        obtain rfl : X = e1 := by simpa using heq0
        split at h
        next heq => exact absurd h (by simp)
        next g1 heq =>
          unfold setPlayersStep2 at h
          split at h
          next heq1 => exact absurd heq1 (by simp)
          next e2 heq1 =>
            obtain rfl : Y = e2 := by simpa using heq1
            split at h
            next heq2 => exact absurd h (by simp)
            next g2 heq2 =>
              obtain rfl : ({ { d with game := g1, player1EngineID := X } with
                  game := g2, player2EngineID := Y } : DevelopS) = d' := by
                simpa using h
              refine ⟨rfl, rfl, ?_⟩
              simp [initRequest]

/-- C9 witness: the snapshot property evaluated on the concrete hub
`develop0` with engines 0 and 1. -/
theorem setplayers_then_init_reports_players_witness :
    develop1.player1EngineID = 0 ∧ develop1.player2EngineID = 1 ∧
    ("players player1 " ++ toString (0 : Int) ++ " player2 " ++ toString (1 : Int)) ∈
      initRequest develop1 "T" :=
  setplayers_then_init_reports_players develop0 develop1 0 1 "T"
    (by decide) (by decide) (by decide)

/-! ### C10: Stop clears the thinking flag unconditionally -/

/-- C10: on a ready, thinking engine handle, `Stop` clears the `thinking`
flag and passes the communicator's result through even when that result is
an error; immediately afterwards `Go` is accepted again (it sets `thinking`
and returns the communicator's answer), while a second `Stop` fails with
the is-not-thinking error — regardless of what the child engine did. -/
theorem stop_clears_thinking_unconditionally (e : EngineP0) (r r2 : Except String Int)
    (cerr : Option String) (hr : e.ready = true) (ht : e.thinking = true) :
    (engineStop e r).1.thinking = false ∧
    (engineStop e r).2 = r ∧
    (engineGo (engineStop e r).1 cerr).1.thinking = true ∧
    (engineGo (engineStop e r).1 cerr).2 = cerr ∧
    (engineStop (engineStop e r).1 r2).2 = .error "engine is not thinking" := by
  simp [engineStop, engineGo, hr, ht]

/-- C10 witness: the behaviour evaluated on a concrete thinking handle with
a timed-out communicator `Stop`. -/
theorem stop_clears_thinking_unconditionally_witness :
    (engineStop { ready := true, thinking := true } (.error "bestmove timed out")).1.thinking
        = false ∧
    (engineStop { ready := true, thinking := true } (.error "bestmove timed out")).2
        = .error "bestmove timed out" ∧
    (engineGo (engineStop { ready := true, thinking := true }
        (.error "bestmove timed out")).1 none).1.thinking = true ∧
    (engineGo (engineStop { ready := true, thinking := true }
        (.error "bestmove timed out")).1 none).2 = none ∧
    (engineStop (engineStop { ready := true, thinking := true }
        (.error "bestmove timed out")).1 (.ok 3)).2 = .error "engine is not thinking" :=
  stop_clears_thinking_unconditionally { ready := true, thinking := true }
    (.error "bestmove timed out") (.ok 3) none rfl rfl

end Konnect4
